import Mathlib

/-!
# Verification of the RAGD retrieval-and-orchestration pipeline

Shallow embedding of the core of the RAGD repository (a browser RAG
application): the chunker, the lexical and semantic similarity rankers,
the structured-text extractor for document comparison, the retry loop of
`compareDocuments`, the per-document summary pre-step, and the
process-wide embedded-chunk store.

JS strings are modelled as `List Char`; JS numbers appearing in
similarity computations are modelled by `JSNum` (exact rationals plus
`NaN`/infinities, mirroring the IEEE special values the code can reach;
IEEE rounding does not matter for any claim because every reached
computation is exact); `Math.sqrt` is an opaque parameter constrained by
`SqrtSpec`.  Fallible operations return `Except`.
-/

/-- JS whitespace test for the characters relevant here (`/\s+/`, `trim`).
The source only ever meets spaces, tabs, CR and LF. -/
def isWS (c : Char) : Bool := c == ' ' || c == '\t' || c == '\n' || c == '\r'

/-- Worker for `jsSplitWS`: scan the characters; `acc` holds the current
token reversed and `inRun` records whether the scanner stands inside a
whitespace run whose token has already been emitted.  A whitespace run
ends the current token (possibly empty, as JS `split(/\s+/)` keeps empty
edge pieces) and is absorbed whole. -/
def splitWSM : List Char → Bool → List Char → List (List Char)
  | [], _, acc => [acc.reverse]
  | c :: cs, inRun, acc =>
    if isWS c then
      if inRun then splitWSM cs true []
      else acc.reverse :: splitWSM cs true []
    else splitWSM cs false (c :: acc)

/-- JS `text.split(/\s+/)`: split on maximal whitespace runs, keeping the
empty pieces that arise at the edges (`" a".split(/\s+/) = ["", "a"]`,
`"".split(/\s+/) = [""]`). -/
def jsSplitWS (cs : List Char) : List (List Char) := splitWSM cs false []

/-- JS `s.split(sep)` for a single-character separator (no run merging):
`"a\n\nb".split('\n') = ["a", "", "b"]`. -/
def splitChar (sep : Char) : List Char → List (List Char)
  | [] => [[]]
  | c :: rest =>
    if c == sep then [] :: splitChar sep rest
    else
      match splitChar sep rest with
      | w :: ws => (c :: w) :: ws
      | [] => [[c]]

/-- JS `String.prototype.trim`: drop leading and trailing whitespace. -/
def trimChars (cs : List Char) : List Char :=
  ((cs.dropWhile isWS).reverse.dropWhile isWS).reverse

/-- JS `words.join(' ')`. -/
def joinSp : List (List Char) → List Char
  | [] => []
  | [w] => w
  | w :: ws => w ++ ' ' :: joinSp ws

/-- First index at which `pat` occurs as a contiguous subsequence of `s`
(JS `indexOf` / first regex literal match position), `none` if absent. -/
def findOcc (pat : List Char) : List Char → Option Nat
  | [] => if pat = [] then some 0 else none
  | c :: cs =>
    if pat.isPrefixOf (c :: cs) then some 0
    else (findOcc pat cs).map (· + 1)

/-- JS `hay.includes(needle)`. -/
def seqContains (hay needle : List Char) : Bool := (findOcc needle hay).isSome

/-- ASCII-adequate model of JS `toLowerCase` (all strings the claims touch
are ASCII plus `•`, which is case-invariant). -/
def lowerChars (cs : List Char) : List Char := cs.map Char.toLower

/-- Uppercase normalisation used to model case-insensitive (`/i`) regex
label matching; the section labels are ASCII. -/
def upperChars (cs : List Char) : List Char := cs.map Char.toUpper

/-! ## Chunker (`splitIntoChunks`, src/src/lib/rag.ts lines 56-68)

```
const words = text.split(/\s+/)
for (let i = 0; i < words.length; i += chunkSize - overlap) {
  const chunk = words.slice(i, i + chunkSize).join(' ')
  if (chunk.trim()) chunks.push(chunk.trim())
}
```
-/

/-- The word windows visited by the chunker loop: at each round take
`size` words and advance by `step`.  `fuel` bounds the number of rounds;
`chunkWindows` supplies `words.length`, which is enough because each
round consumes `step ≥ 1` words.  (For `step = 0` the source loop does
not terminate; every claim assumes `overlap < chunkSize`, i.e.
`step ≥ 1`.) -/
def chunkWindowsGo (size step : Nat) : Nat → List (List Char) → List (List (List Char))
  | _, [] => []
  | 0, _ :: _ => []
  | fuel + 1, w :: ws => ((w :: ws).take size) :: chunkWindowsGo size step fuel ((w :: ws).drop step)

/-- All word windows of the chunker loop over `words`. -/
def chunkWindows (words : List (List Char)) (size step : Nat) : List (List (List Char)) :=
  chunkWindowsGo size step words.length words

/-- `splitIntoChunks(text, chunkSize, overlap)`: split on whitespace,
join each window with spaces, keep the trimmed chunk when non-empty.
The source's default arguments are `chunkSize = 500`, `overlap = 100`. -/
def splitIntoChunks (text : List Char) (chunkSize overlap : Nat) : List (List Char) :=
  (chunkWindows (jsSplitWS text) chunkSize (chunkSize - overlap)).filterMap fun w =>
    let c := trimChars (joinSp w)
    if c = [] then none else some c

/-- The reassembly described by the claim: take the first `step` words of
every chunk but the last, then all words of the last chunk. -/
def reassembleWords (step : Nat) : List (List Char) → List (List Char)
  | [] => []
  | [c] => jsSplitWS c
  | c :: rest => (jsSplitWS c).take step ++ reassembleWords step rest

/-- The whitespace-delimited word sequence of a text (its non-empty
whitespace-separated words). -/
def wordsOfText (t : List Char) : List (List Char) := (jsSplitWS t).filter (· ≠ [])

/-! ## JS numbers (`JSNum`) and cosine similarity

`cosineSimilarity` (src/src/lib/rag.ts lines 103-108) computes

```
const dotProduct = a.reduce((sum, val, i) => sum + val * b[i], 0)
const magnitudeA = Math.sqrt(a.reduce((sum, val) => sum + val * val, 0))
const magnitudeB = Math.sqrt(b.reduce((sum, val) => sum + val * val, 0))
return dotProduct / (magnitudeA * magnitudeB)
```

with no guard against a zero magnitude.  `JSNum` models the IEEE values
the code can reach: exact rationals and the special values `NaN`, `±∞`
(IEEE signed zero plays no role on the inputs of any claim, and every
computation a claim touches is exact, so rounding is irrelevant).
`Math.sqrt` is irrational in general, so it enters as an opaque function
parameter constrained by `SqrtSpec`, which records exactly the two facts
the claims need: `sqrt 0 = 0` and a non-negative finite argument gives a
non-negative finite result. -/

/-- IEEE-style value model for the JS numbers reached by the similarity
computations. -/
inductive JSNum where
  | fin (q : ℚ)
  | inf
  | negInf
  | nan
deriving DecidableEq

/-- JS `+` on `JSNum`. -/
def jsAdd : JSNum → JSNum → JSNum
  | .nan, _ => .nan
  | _, .nan => .nan
  | .fin a, .fin b => .fin (a + b)
  | .inf, .negInf => .nan
  | .negInf, .inf => .nan
  | .inf, _ => .inf
  | _, .inf => .inf
  | .negInf, _ => .negInf
  | _, .negInf => .negInf

/-- JS `*` on `JSNum`. -/
def jsMul : JSNum → JSNum → JSNum
  | .nan, _ => .nan
  | _, .nan => .nan
  | .fin a, .fin b => .fin (a * b)
  | .inf, .fin b => if b = 0 then .nan else if 0 < b then .inf else .negInf
  | .fin a, .inf => if a = 0 then .nan else if 0 < a then .inf else .negInf
  | .negInf, .fin b => if b = 0 then .nan else if 0 < b then .negInf else .inf
  | .fin a, .negInf => if a = 0 then .nan else if 0 < a then .negInf else .inf
  | .inf, .inf => .inf
  | .negInf, .negInf => .inf
  | .inf, .negInf => .negInf
  | .negInf, .inf => .negInf

/-- JS `/` on `JSNum`: `0/0 = NaN`, `x/0 = ±∞` for finite `x ≠ 0`. -/
def jsDiv : JSNum → JSNum → JSNum
  | .nan, _ => .nan
  | _, .nan => .nan
  | .fin a, .fin b =>
    if b ≠ 0 then .fin (a / b)
    else if a = 0 then .nan
    else if 0 < a then .inf else .negInf
  | .fin _, .inf => .fin 0
  | .fin _, .negInf => .fin 0
  | .inf, .fin b => if 0 ≤ b then .inf else .negInf
  | .negInf, .fin b => if 0 ≤ b then .negInf else .inf
  | .inf, .inf => .nan
  | .inf, .negInf => .nan
  | .negInf, .inf => .nan
  | .negInf, .negInf => .nan

/-- JS array indexing `b[i]` inside a numeric expression: out-of-range
yields `undefined`, which behaves as `NaN` in arithmetic. -/
def jsNth (l : List ℚ) (i : Nat) : JSNum :=
  match l[i]? with
  | some q => .fin q
  | none => .nan

/-- The `reduce` of `a.reduce((sum, val, i) => sum + val * b[i], 0)`,
walking `a` with its index. -/
def dotAux (b : List ℚ) : List ℚ → Nat → JSNum → JSNum
  | [], _, sum => sum
  | x :: xs, i, sum => dotAux b xs (i + 1) (jsAdd sum (jsMul (.fin x) (jsNth b i)))

/-- `a.reduce((sum, val, i) => sum + val * b[i], 0)`. -/
def dotProduct (a b : List ℚ) : JSNum := dotAux b a 0 (.fin 0)

/-- `v.reduce((sum, val) => sum + val * val, 0)`: exact, always finite. -/
def sumSquares (v : List ℚ) : ℚ := v.foldl (fun s x => s + x * x) 0

/-- The facts about `Math.sqrt` the claims rely on: `sqrt 0 = 0` exactly,
and a non-negative finite argument produces a non-negative finite
result. -/
def SqrtSpec (sqrt : JSNum → JSNum) : Prop :=
  sqrt (.fin 0) = .fin 0 ∧ ∀ q : ℚ, 0 ≤ q → ∃ r : ℚ, 0 ≤ r ∧ sqrt (.fin q) = .fin r

/-- `cosineSimilarity(a, b)` with `Math.sqrt` passed as a parameter. -/
def cosineSimilarity (sqrt : JSNum → JSNum) (a b : List ℚ) : JSNum :=
  jsDiv (dotProduct a b)
    (jsMul (sqrt (.fin (sumSquares a))) (sqrt (.fin (sumSquares b))))

/-- A computable stand-in satisfying `SqrtSpec`, used only to instantiate
theorems that quantify over every conforming square root (it is not the
numeric square root; on the concrete inputs of the claims only
`sqrt 0 = 0` and non-negativity matter). -/
def sqrtModel : JSNum → JSNum
  | .fin q => if 0 ≤ q then .fin q else .nan
  | _ => .nan

/-! ## Documents, sources and the lexical ranker

`findRelevantChunksSimple` (src/src/lib/rag.ts lines 184-210):

```
const queryWords = query.toLowerCase().split(/\s+/).filter(w => w.length > 2)
documents.forEach(doc => { doc.chunks.forEach(chunk => {
  const chunkLower = chunk.toLowerCase()
  const matchCount = queryWords.filter(word => chunkLower.includes(word)).length
  const similarity = matchCount / queryWords.length
  if (similarity > 0) allChunks.push({ text: chunk, documentId: doc.id,
                                       documentName: doc.name, similarity }) }) })
allChunks.sort((a, b) => b.similarity - a.similarity)
return allChunks.slice(0, topK)
```
-/

/-- A document as held by the UI and passed to the retrieval operations.
The optional `type`/`metadata` fields of the source interface play no
role in any claim and are omitted. -/
structure Document where
  id : List Char
  name : List Char
  content : List Char
  chunks : List (List Char)
deriving DecidableEq

/-- A retrieval result (`Source` interface of the source). -/
structure Source where
  text : List Char
  documentId : List Char
  documentName : List Char
  similarity : JSNum
deriving DecidableEq

/-- JS `similarity > 0` (NaN compares false). -/
def jsGtZeroB : JSNum → Bool
  | .fin q => decide (0 < q)
  | .inf => true
  | _ => false

/-- `b.similarity - a.similarity < 0`, the condition under which the JS
descending sort places `a` before `b`.  NaN comparisons yield `false`
(the comparator contract is unspecified for NaN; no claim sorts NaN). -/
def jsGeB : JSNum → JSNum → Bool
  | .fin a, .fin b => decide (b ≤ a)
  | .inf, _ => true
  | _, .negInf => true
  | _, _ => false

/-- Insert into a descending-sorted list, after any earlier element with
an equal key — the placement a stable sort gives the original head. -/
def insertDescBy (key : α → JSNum) (s : α) : List α → List α
  | [] => [s]
  | t :: ts => if jsGeB (key s) (key t) then s :: t :: ts else t :: insertDescBy key s ts

/-- Stable descending sort by a numeric key, modelling
`arr.sort((a, b) => key(b) - key(a))` (JS sort is stable). -/
def sortDescBy (key : α → JSNum) : List α → List α
  | [] => []
  | s :: ss => insertDescBy key s (sortDescBy key ss)

/-- `arr.sort((a, b) => b.similarity - a.similarity)` on sources. -/
def sortDesc : List Source → List Source := sortDescBy Source.similarity

/-- `query.toLowerCase().split(/\s+/).filter(w => w.length > 2)`. -/
def queryTokens (query : List Char) : List (List Char) :=
  (jsSplitWS (lowerChars query)).filter (fun w => decide (2 < w.length))

/-- The similarity the lexical ranker assigns to a chunk:
`matchCount / queryWords.length` in JS arithmetic (`0/0 = NaN` when the
filtered query is empty). -/
def chunkSimilarity (query chunk : List Char) : JSNum :=
  jsDiv
    (.fin (((queryTokens query).filter
      (fun w => seqContains (lowerChars chunk) w)).length : ℚ))
    (.fin ((queryTokens query).length : ℚ))

/-- `findRelevantChunksSimple(query, documents, topK)` (default
`topK = 3` in the source). -/
def findRelevantChunksSimple (query : List Char) (documents : List Document)
    (topK : Nat) : List Source :=
  let allChunks := documents.flatMap fun doc =>
    doc.chunks.filterMap fun chunk =>
      let similarity := chunkSimilarity query chunk
      if jsGtZeroB similarity then
        some { text := chunk, documentId := doc.id, documentName := doc.name,
               similarity := similarity }
      else none
  (sortDesc allChunks).take topK

/-- A document fixture used by witnesses: one chunk of text. -/
def docFixture : Document :=
  { id := "doc-1".data, name := "a.txt".data,
    content := "hello world and more words".data,
    chunks := ["hello world and more words".data] }

/-! ## Semantic retrieval with lexical fallback

`findRelevantChunks` (src/src/lib/rag.ts lines 154-181) and the
part_002 variant of `queryDocuments` (src/unnamed/part_002 lines
160-218).  The query-embedding call (`generateEmbedding`) either
resolves with a vector or rejects (timeout after 60s, or a worker
error); its outcome enters the embedding as an explicit value. -/

/-- An entry of the process-wide embedding store (rag.ts variant:
`{ text, embedding, documentId }`). -/
structure ChunkWithEmbedding where
  text : List Char
  embedding : List ℚ
  documentId : List Char
deriving DecidableEq

/-- An entry of the part_002 store, which also records the document
name. -/
structure ChunkWithEmbeddingP2 where
  text : List Char
  embedding : List ℚ
  documentId : List Char
  documentName : List Char
deriving DecidableEq

/-- Outcome of one `generateEmbedding` call: a vector, or a rejection
(timeout / worker error) carrying the error message. -/
inductive EmbedOutcome where
  | ok (v : List ℚ)
  | error (msg : List Char)
deriving DecidableEq

/-- `findRelevantChunks(query, documents, topK)` from rag.ts: in
production or with an empty store, lexical search; otherwise embed the
query and rank the store by cosine similarity, falling back to lexical
search when the embedding call rejects (the `catch` branch).
`doc?.name || 'Unknown'` degrades a missing or empty name. -/
def findRelevantChunks (sqrt : JSNum → JSNum) (isProduction : Bool)
    (store : List ChunkWithEmbedding) (embedOutcome : EmbedOutcome)
    (query : List Char) (documents : List Document) (topK : Nat) : List Source :=
  if isProduction || store.isEmpty then
    findRelevantChunksSimple query documents topK
  else
    match embedOutcome with
    | .error _ => findRelevantChunksSimple query documents topK
    | .ok queryEmbedding =>
      let similarities := store.map fun chunk =>
        let doc := documents.find? fun d => d.id == chunk.documentId
        ({ text := chunk.text, documentId := chunk.documentId,
           documentName :=
             match doc with
             | some d => if d.name = [] then "Unknown".data else d.name
             | none => "Unknown".data,
           similarity := cosineSimilarity sqrt queryEmbedding chunk.embedding } : Source)
      (sortDesc similarities).take topK

/-- A scored chunk of the part_002 production-mode keyword search. -/
structure ScoredChunk where
  chunk : List Char
  score : Nat
  documentId : List Char
  documentName : List Char
deriving DecidableEq

/-- The retrieval phase of part_002's `queryDocuments` (lines 160-218,
up to the `sources` computation; the rest of the function only issues
the LLM call and does not touch retrieval).  Production mode runs a
keyword search (`split(' ')`, tokens of length > 3, integer hit count);
development mode requires the embedding store to be non-empty — an empty
store throws, and a rejected query embedding propagates. -/
def queryDocumentsRetrievalP2 (sqrt : JSNum → JSNum) (isProduction : Bool)
    (store : List ChunkWithEmbeddingP2) (embedOutcome : EmbedOutcome)
    (query : List Char) (documents : List Document) :
    Except (List Char) (List Source) :=
  if documents = [] then
    .error "No hay documentos cargados".data
  else if isProduction then
    let keywords := (splitChar ' ' (lowerChars query)).filter fun w => decide (3 < w.length)
    let scoredChunks := (documents.flatMap fun doc =>
      doc.chunks.map fun chunk =>
        ({ chunk := chunk,
           score := keywords.foldl
             (fun acc keyword =>
               acc + (if seqContains (lowerChars chunk) keyword then 1 else 0)) 0,
           documentId := doc.id, documentName := doc.name } : ScoredChunk)).filter
      fun item => decide (0 < item.score)
    let topChunks := (sortDescBy (fun i => .fin (i.score : ℚ)) scoredChunks).take 3
    .ok (topChunks.map fun item =>
      { text := item.chunk.take 150 ++ "...".data, documentId := item.documentId,
        documentName := item.documentName,
        similarity := jsDiv (.fin (item.score : ℚ)) (.fin (keywords.length : ℚ)) })
  else
    if store.isEmpty then
      .error "No hay embeddings generados. Por favor sube los documentos de nuevo.".data
    else
      match embedOutcome with
      | .error msg => .error msg
      | .ok queryEmbedding =>
        let similarities := store.map fun item =>
          ({ text := item.text, documentId := item.documentId,
             documentName := item.documentName,
             similarity := cosineSimilarity sqrt queryEmbedding item.embedding } : Source)
        let topChunks := (sortDesc similarities).take 3
        .ok (topChunks.map fun item =>
          { item with text := item.text.take 150 ++ "...".data })

/-- A part_002 store entry used by the counterexample. -/
def chunkP2Fixture : ChunkWithEmbeddingP2 :=
  { text := "hello world and more words".data, embedding := [1, 0],
    documentId := "doc-1".data, documentName := "a.txt".data }

/-! ## Structured-text extractor for document comparison

Section capture (rag.ts lines 377-379, identical in part_001):

```
content.match(/SIMILITUDES:?\s*([\s\S]*?)(?=DIFERENCIAS:|$)/i)
content.match(/DIFERENCIAS:?\s*([\s\S]*?)(?=RESUMEN:|$)/i)
content.match(/RESUMEN:?\s*([\s\S]*?)$/i)
```

The lazy capture with the `(?=LABEL|$)` lookahead takes everything from
after the label (an optional colon and a greedy whitespace run) up to the
first following occurrence of the next label, or to the end of the text;
`/i` is modelled by uppercase-normalising the text before the search
(labels are ASCII). -/

/-- The capture of `([\s\S]*?)(?=NEXT|$)`: up to the first occurrence of
`next` (given uppercase), or the whole rest. -/
def captureUntil (next : Option (List Char)) (s : List Char) : List Char :=
  match next with
  | none => s
  | some nextLabel =>
    match findOcc nextLabel (upperChars s) with
    | some k => s.take k
    | none => s

/-- One `content.match(/LABEL:?\s*([\s\S]*?)(?=NEXT|$)/i)` capture group:
`none` when the label does not occur. -/
def matchSection (label : List Char) (next : Option (List Char))
    (content : List Char) : Option (List Char) :=
  match findOcc label (upperChars content) with
  | none => none
  | some i =>
    let rest := content.drop (i + label.length)
    let rest :=
      match rest with
      | ':' :: r => r
      | r => r
    some (captureUntil next (rest.dropWhile isWS))

/-- `s.startsWith(m)` for each single-character bullet marker `m`. -/
def startsWithMarker (markers : List Char) : List Char → Bool
  | [] => false
  | c :: _ => markers.contains c

/-- `s.replace(/^[-•*]\s*/, '')` (respectively `/^[-•]\s*/` in the
part_002 variant): drop one leading marker character and the whitespace
run after it. -/
def stripMarker (markers : List Char) (s : List Char) : List Char :=
  match s with
  | [] => s
  | c :: rest => if markers.contains c then rest.dropWhile isWS else s

/-- Bullet-item extraction from a captured section block (rag.ts lines
381-399; part_002 lines 420-438 with its smaller marker set):

```
block.split('\n').map(s => s.trim())
  .filter(s => s.length > 0 && (s.startsWith('-') || s.startsWith('•') || s.startsWith('*')))
  .map(s => s.replace(/^[-•*]\s*/, '').trim())
  .filter(s => s.length > 10)
```
-/
def extractItems (markers : List Char) (block : List Char) : List (List Char) :=
  ((((splitChar '\n' block).map trimChars).filter
    (fun s => decide (0 < s.length) && startsWithMarker markers s)).map
    (fun s => trimChars (stripMarker markers s))).filter
    (fun s => decide (10 < s.length))

/-- The markers accepted by rag.ts and part_001 (`-`, `•`, `*`). -/
def ragMarkers : List Char := ['-', '•', '*']

/-- The markers accepted by part_002 (`-`, `•` only — no `*`). -/
def p2Markers : List Char := ['-', '•']

/-- Summary extraction from the captured `RESUMEN` block (rag.ts lines
402-409): keep trimmed non-empty lines not starting with `-` or `•`,
join with spaces, trim. -/
def extractSummaryBlock (block : List Char) : List Char :=
  trimChars (joinSp (((splitChar '\n' block).map trimChars).filter
    (fun s => decide (0 < s.length) && !startsWithMarker ['-'] s
      && !startsWithMarker ['•'] s)))

/-- The `similarities` list before the item cap (rag.ts lines 382-389). -/
def comparisonSimilarities (content : List Char) : List (List Char) :=
  match matchSection "SIMILITUDES".data (some "DIFERENCIAS:".data) content with
  | some b => extractItems ragMarkers b
  | none => []

/-- The `differences` list before the item cap (rag.ts lines 392-399). -/
def comparisonDifferences (content : List Char) : List (List Char) :=
  match matchSection "DIFERENCIAS".data (some "RESUMEN:".data) content with
  | some b => extractItems ragMarkers b
  | none => []

/-- The summary before the fallbacks (rag.ts lines 402-409). -/
def comparisonRawSummary (content : List Char) : List Char :=
  match matchSection "RESUMEN".data none content with
  | some b => extractSummaryBlock b
  | none => []

/-- The comparison result record. -/
structure ComparisonResult where
  similarities : List (List Char)
  differences : List (List Char)
  summary : List Char
deriving DecidableEq

/-- The fixed generic summary substituted when parsing degrades. -/
def genericSummaryMsg : List Char :=
  "Los documentos han sido comparados. Revisa las similitudes y diferencias para más detalles.".data

/-- The full extraction of `compareDocuments` after a successful call
(rag.ts lines 377-424 with `itemLimit = 5`; part_001 lines 401-450 with
`itemLimit = 10`): section capture, item extraction, the first-200-chars
fallback when every section yields nothing, and the generic-message
substitution for an empty or too-short summary. -/
def parseComparison (itemLimit : Nat) (content : List Char) : ComparisonResult :=
  let similarities := comparisonSimilarities content
  let differences := comparisonDifferences content
  let summary0 := comparisonRawSummary content
  let summary1 :=
    if similarities = [] ∧ differences = [] ∧ summary0 = [] then
      content.take 200 ++ "...".data
    else summary0
  let summary2 :=
    if summary1 = [] ∨ summary1.length < 10 then genericSummaryMsg else summary1
  { similarities := similarities.take itemLimit,
    differences := differences.take itemLimit,
    summary := summary2 }

/-- rag.ts caps lists at 5 items. -/
def parseComparisonRag (content : List Char) : ComparisonResult := parseComparison 5 content

/-- part_001 caps lists at 10 items. -/
def parseComparisonP1 (content : List Char) : ComparisonResult := parseComparison 10 content

/-- `.replace(/\*\*/g, '')`: drop every `**` pair (part_002's summary
clean-up, and the emphasis stripping Claim C6 describes). -/
def stripDoubleStars : List Char → List Char
  | '*' :: '*' :: rest => stripDoubleStars rest
  | c :: rest => c :: stripDoubleStars rest
  | [] => []

/-- Modelled from the spec: the item extraction exactly as Claim C6
states it — keep lines starting with `-`, `•` or `*`, strip the marker,
trim, strip emphasis markers, and discard items SHORTER than the
10-character minimum (i.e. keep length ≥ 10).  Used only to compare the
claim's wording against the source pipeline. -/
def claimExtractItems (block : List Char) : List (List Char) :=
  ((((splitChar '\n' block).map trimChars).filter
    (fun s => startsWithMarker ['-', '•', '*'] s)).map
    (fun s => stripDoubleStars (trimChars (stripMarker ['-', '•', '*'] s)))).filter
    (fun s => decide (10 ≤ s.length))

/-- The block used by the Claim C6 counterexample. -/
def c6Block : List Char := "- **12345678**\n- a234567890".data

/-! ## The `compareDocuments` retry loop (src/unnamed/part_001 lines 336-463)

```
const maxRetries = 3
let lastError = null
for (let attempt = 0; attempt < maxRetries; attempt++) {
  try {
    if (attempt > 0) { const waitTime = attempt === 1 ? 10000 : 30000; await sleep(waitTime) }
    const response = await fetch(...)
    if (!response.ok) {
      if (response.status === 429) { lastError = new Error('Demasiadas …'); continue }
      throw new Error('Error al comparar documentos')
    }
    …validation, parsing…; return result
  } catch (error) {
    if (lastError && attempt < maxRetries - 1) { continue }
    lastError = error instanceof Error ? error : new Error('Unknown error')
  }
}
throw lastError || new Error('Error al comparar documentos después de varios intentos')
```

One HTTP attempt is abstracted as a `FetchOutcome`; the attempt-indexed
response sequence drives the loop.  The `waits` field records the
`setTimeout` delays actually awaited, and `attempts` counts the fetches
issued. -/

/-- The JSON error object optionally embedded in a 2xx body
(`data.error`, with its optional `.message`). -/
structure ApiError where
  message : Option (List Char)
deriving DecidableEq

/-- One entry of `data.choices`; `content` collapses the
`choices[i]?.message?.content` optional chain. -/
structure ApiChoice where
  content : Option (List Char)
deriving DecidableEq

/-- A parsed 2xx response body.  `choices = none` models a missing or
non-array `choices` field. -/
structure ApiResponse where
  error : Option ApiError
  choices : Option (List ApiChoice)
deriving DecidableEq

/-- Outcome of one `fetch` of the synthesis call. -/
inductive FetchOutcome where
  | ok (data : ApiResponse)
  | httpError (status : Nat)
  | networkError (msg : List Char)
deriving DecidableEq

/-- `'Error al comparar documentos'`. -/
def compareGenericErr : List Char := "Error al comparar documentos".data

/-- The rate-limit error stored on a 429. -/
def rateLimitMsg : List Char := "Demasiadas peticiones. Reintentando automáticamente...".data

/-- What one loop body does with its response, before the catch logic:
succeed with the parsed result, signal a 429, or throw. -/
inductive AttemptResult where
  | success (r : ComparisonResult)
  | rateLimited
  | failed (e : List Char)

/-- The try-block of one attempt of part_001's `compareDocuments`. -/
def attemptOnce (out : FetchOutcome) : AttemptResult :=
  match out with
  | .networkError msg => .failed msg
  | .httpError status =>
    if status = 429 then .rateLimited else .failed compareGenericErr
  | .ok data =>
    match data.error with
    | some err =>
      .failed (match err.message with
        | some m => if m = [] then compareGenericErr else m
        | none => compareGenericErr)
    | none =>
      match data.choices with
      | none => .failed "Respuesta inválida del servidor".data
      | some [] => .failed "Respuesta inválida del servidor".data
      | some (c :: _) =>
        match c.content with
        | some m =>
          if m = [] then .failed "No se pudo obtener respuesta de comparación".data
          else .success (parseComparisonP1 m)
        | none => .failed "No se pudo obtener respuesta de comparación".data

/-- The observable outcome of a `compareDocuments` run: the returned or
thrown value, the number of fetches issued, and the delays awaited. -/
structure RunResult where
  result : Except (List Char) ComparisonResult
  attempts : Nat
  waits : List Nat

/-- The retry loop.  `rem` is the remaining loop iterations
(`maxRetries − attempt`), kept as explicit fuel; the final state throws
`lastError` (or the generic exhaustion message when no error was
recorded, which cannot happen after three iterations).  The catch branch
mirrors the source: with a recorded `lastError` and attempts remaining it
`continue`s without touching `lastError`; otherwise it records the new
error — and, like the source's `catch` that never rethrows, the loop
then proceeds to the next attempt. -/
def compareGo (resp : Nat → FetchOutcome) :
    Nat → Nat → Option (List Char) → List Nat → RunResult
  | 0, attempt, lastError, waits =>
    { result := .error (lastError.getD
        "Error al comparar documentos después de varios intentos".data),
      attempts := attempt, waits := waits }
  | rem + 1, attempt, lastError, waits =>
    let waits := if attempt = 0 then waits
      else waits ++ [if attempt = 1 then 10000 else 30000]
    match attemptOnce (resp attempt) with
    | .success r => { result := .ok r, attempts := attempt + 1, waits := waits }
    | .rateLimited => compareGo resp rem (attempt + 1) (some rateLimitMsg) waits
    | .failed e =>
      if lastError.isSome && decide (attempt < 3 - 1) then
        compareGo resp rem (attempt + 1) lastError waits
      else
        compareGo resp rem (attempt + 1) (some e) waits

/-- A full `compareDocuments` run over the per-attempt outcomes
(`maxRetries = 3`). -/
def compareDocumentsRun (resp : Nat → FetchOutcome) : RunResult :=
  compareGo resp 3 0 none []

/-- Turn a finite response sequence into the attempt-indexed oracle; the
padding outcome is never reached by the scenarios that use it. -/
def respSeq (outs : List FetchOutcome) : Nat → FetchOutcome :=
  fun n => outs.getD n (.httpError 999)

/-- A well-formed 200 payload for the synthesis call. -/
def compareOkContent : List Char :=
  "SIMILITUDES:\n- los documentos comparten tema\nDIFERENCIAS:\n- difieren en el enfoque\nRESUMEN:\nComparacion completada con exito.".data

/-- The 200 response carrying `compareOkContent`. -/
def compareOkResponse : FetchOutcome :=
  .ok { error := none, choices := some [{ content := some compareOkContent }] }

/-- What `parseComparisonP1` extracts from `compareOkContent`. -/
def compareOkParsed : ComparisonResult :=
  { similarities := ["los documentos comparten tema".data],
    differences := ["difieren en el enfoque".data],
    summary := "Comparacion completada con exito.".data }

/-! ## The per-document summary pre-step
(`generateDocumentSummary`, src/unnamed/part_002 lines 287-319)

```
const sampleContent = doc.chunks.slice(0, 3).join(' ').slice(0, 1000)
…one fetch with model llama-3.1-8b-instant, max_tokens 150…
if (!response.ok) { return `Documento: ${doc.name}` }
return data.choices[0]?.message?.content || `Documento: ${doc.name}`
// catch: return `Documento: ${doc.name}`
```
-/

/-- The degradation placeholder `` `Documento: ${doc.name}` ``. -/
def summaryPlaceholder (docName : List Char) : List Char :=
  "Documento: ".data ++ docName

/-- `doc.chunks.slice(0, 3).join(' ').slice(0, 1000)`. -/
def sampleContent (doc : Document) : List Char :=
  (joinSp (doc.chunks.take 3)).take 1000

/-- The request shape of the one summary call. -/
structure LLMRequest where
  model : List Char
  maxTokens : Nat
  prompt : List Char
deriving DecidableEq

/-- The request `generateDocumentSummary` issues. -/
def summaryRequest (doc : Document) : LLMRequest :=
  { model := "llama-3.1-8b-instant".data, maxTokens := 150,
    prompt := "Resume brevemente este documento en 3-4 líneas, enfocándote en los temas principales:\n\n".data
      ++ sampleContent doc }

/-- `generateDocumentSummary` given the outcome of its one call: every
failure path (non-2xx response, network or JSON rejection caught by the
`catch`, missing choices — a `TypeError` also caught — or missing/empty
content) returns the placeholder; only a present non-empty content is
returned as-is.  The function never throws. -/
def generateDocumentSummary (doc : Document) (out : FetchOutcome) : List Char :=
  match out with
  | .networkError _ => summaryPlaceholder doc.name
  | .httpError _ => summaryPlaceholder doc.name
  | .ok data =>
    match data.choices with
    | some (c :: _) =>
      match c.content with
      | some m => if m = [] then summaryPlaceholder doc.name else m
      | none => summaryPlaceholder doc.name
    | _ => summaryPlaceholder doc.name

/-! ## The process-wide embedded-chunk store (src/src/lib/rag.ts)

`uploadDocument` (lines 111-151) parses the file, rejects empty text,
chunks, and — outside production — embeds each chunk in order, pushing
one store entry per chunk; an embedding rejection aborts the loop (the
entries already pushed remain) and the upload still succeeds.  Ranking
(`findRelevantChunks`) only reads the store.  The store is threaded
explicitly; `id` stands for the generated
`doc-${Date.now()}-${random}` identifier. -/

/-- What the external `parseDocument` collaborator returns for a file. -/
structure ParsedFile where
  name : List Char
  text : List Char
deriving DecidableEq

/-- The per-chunk embedding loop of `uploadDocument`: push one entry per
chunk until the first rejection (whose `catch` keeps what was pushed and
continues the upload without embeddings). -/
def embedLoop (embedOf : List Char → EmbedOutcome) (id : List Char) :
    List (List Char) → List ChunkWithEmbedding
  | [] => []
  | c :: cs =>
    match embedOf c with
    | .ok v => { text := c, embedding := v, documentId := id } :: embedLoop embedOf id cs
    | .error _ => []

/-- `uploadDocument`, with the store passed and returned explicitly (the
source mutates the module-level array by `push` only). -/
def uploadDocument (isProduction : Bool) (embedOf : List Char → EmbedOutcome)
    (store : List ChunkWithEmbedding) (id : List Char) (file : ParsedFile) :
    Except (List Char) (Document × List ChunkWithEmbedding) :=
  if trimChars file.text = [] then
    .error "El documento está vacío o no se pudo extraer el texto".data
  else
    let chunks := splitIntoChunks file.text 500 100
    let newEntries := if isProduction then [] else embedLoop embedOf id chunks
    .ok ({ id := id, name := file.name, content := file.text, chunks := chunks },
      store ++ newEntries)

/-- The operations that touch the store during a session. -/
inductive StoreOp where
  | upload (isProduction : Bool) (embedOf : List Char → EmbedOutcome)
      (id : List Char) (file : ParsedFile)
  | rank (sqrt : JSNum → JSNum) (isProduction : Bool)
      (embedOutcome : EmbedOutcome) (query : List Char)
      (documents : List Document) (topK : Nat)

/-- One operation against the store: the store after it, and the ranking
output when the operation is a ranking. -/
def applyOp (store : List ChunkWithEmbedding) :
    StoreOp → List ChunkWithEmbedding × Option (List Source)
  | .upload isProd embedOf id file =>
    match uploadDocument isProd embedOf store id file with
    | .ok (_, store') => (store', none)
    | .error _ => (store, none)
  | .rank sqrt isProd emb q docs k =>
    (store, some (findRelevantChunks sqrt isProd store emb q docs k))

/-! ## Lemmas and claim theorems -/

-- Sanity checks of the JS string model (kept as examples, not claims).
example : jsSplitWS " a b".data = ["".data, "a".data, "b".data] := by decide
example : jsSplitWS "".data = [[]] := by decide
example : jsSplitWS "a  b ".data = ["a".data, "b".data, [] ] := by decide
example : splitChar '\n' "a\n\nb".data = ["a".data, [], "b".data] := by decide
example : trimChars "  hola  ".data = "hola".data := by decide
example : seqContains "hello world".data "o w".data = true := by decide
example : findOcc "b".data "abc".data = some 1 := by decide

example : splitIntoChunks "a b c d e".data 2 1 =
    ["a b".data, "b c".data, "c d".data, "d e".data, "e".data] := by decide
example : splitIntoChunks " a b c".data 2 1 =
    ["a".data, "a b".data, "b c".data, "c".data] := by decide
example : reassembleWords 1 (splitIntoChunks " a b c".data 2 1) =
    ["a".data, "a".data, "b".data, "c".data] := by decide
example : wordsOfText " a b c".data = ["a".data, "b".data, "c".data] := by decide

/-! ### Lemmas about the whitespace split and join -/

/-- The split never produces an empty list of words. -/
lemma splitWSM_ne_nil (cs : List Char) (inRun : Bool) (acc : List Char) :
    splitWSM cs inRun acc ≠ [] := by
  induction cs generalizing inRun acc with
  | nil => simp [splitWSM]
  | cons c cs ih =>
    simp only [splitWSM]
    split
    · split
      · exact ih _ _
      · simp
    · exact ih _ _

/-- Every character of every word produced by the split is
non-whitespace (given that the accumulator is clean). -/
lemma splitWSM_clean (cs : List Char) (inRun : Bool) (acc : List Char)
    (hacc : ∀ c ∈ acc, isWS c = false) :
    ∀ w ∈ splitWSM cs inRun acc, ∀ c ∈ w, isWS c = false := by
  induction cs generalizing inRun acc with
  | nil =>
    intro w hw c hc
    simp only [splitWSM, List.mem_singleton] at hw
    subst hw
    exact hacc c (List.mem_reverse.mp hc)
  | cons d cs ih =>
    intro w hw c hc
    simp only [splitWSM] at hw
    by_cases hd : isWS d
    · rw [if_pos hd] at hw
      cases inRun with
      | true =>
        simp at hw
        exact ih true [] (by simp) w hw c hc
      | false =>
        simp at hw
        rcases hw with h | h
        · subst h
          exact hacc c (List.mem_reverse.mp hc)
        · exact ih true [] (by simp) w h c hc
    · rw [if_neg hd] at hw
      refine ih false (d :: acc) ?_ w hw c hc
      intro e he
      rcases List.mem_cons.mp he with h | h
      · subst h; exact Bool.not_eq_true _ ▸ (by simpa using hd)
      · exact hacc e h

/-- Scanning a whitespace-free word just accumulates its characters. -/
lemma splitWSM_append (w : List Char) (hw : ∀ c ∈ w, isWS c = false) :
    ∀ (rest acc : List Char),
      splitWSM (w ++ rest) false acc = splitWSM rest false (w.reverse ++ acc) := by
  induction w with
  | nil => intro rest acc; simp
  | cons c w ih =>
    intro rest acc
    have hc : isWS c = false := hw c (List.mem_cons_self c w)
    have hw' : ∀ d ∈ w, isWS d = false := fun d hd => hw d (List.mem_cons_of_mem c hd)
    simp only [List.cons_append, splitWSM, hc, Bool.false_eq_true, if_false]
    show splitWSM (w ++ rest) false (c :: acc) = _
    rw [ih hw' rest (c :: acc)]
    simp

/-- After a separator, the `inRun` flag makes no difference once a
non-whitespace character arrives. -/
lemma splitWSM_true_eq_false (c : Char) (cs : List Char) (hc : isWS c = false) :
    splitWSM (c :: cs) true [] = splitWSM (c :: cs) false [] := by
  simp [splitWSM, hc]

/-- `joinSp` written with an explicit tail. -/
lemma joinSp_cons (w : List Char) (ws : List (List Char)) :
    joinSp (w :: ws) = w ++ (if ws = [] then [] else ' ' :: joinSp ws) := by
  cases ws with
  | nil => simp [joinSp]
  | cons w' ws' => simp [joinSp]

/-- Splitting the space-join of non-empty whitespace-free words recovers
the words. -/
lemma jsSplitWS_joinSp (ws : List (List Char)) (hne : ws ≠ [])
    (hnil : ∀ w ∈ ws, w ≠ []) (hclean : ∀ w ∈ ws, ∀ c ∈ w, isWS c = false) :
    jsSplitWS (joinSp ws) = ws := by
  induction ws with
  | nil => exact absurd rfl hne
  | cons w ws ih =>
    have hwclean : ∀ c ∈ w, isWS c = false := hclean w (List.mem_cons_self w ws)
    cases ws with
    | nil =>
      show splitWSM (joinSp [w]) false [] = [w]
      have : joinSp [w] = w ++ [] := by simp [joinSp]
      rw [this, splitWSM_append w hwclean [] []]
      simp [splitWSM]
    | cons w2 ws' =>
      have hw2 : w2 ≠ [] := hnil w2 (by simp)
      obtain ⟨c2, w2t, hc2⟩ : ∃ c t, w2 = c :: t := by
        cases w2 with
        | nil => exact absurd rfl hw2
        | cons a b => exact ⟨a, b, rfl⟩
      have hc2ws : isWS c2 = false := by
        have := hclean w2 (by simp)
        rw [hc2] at this
        exact this c2 (by simp)
      have hj : joinSp (w :: w2 :: ws') = w ++ ' ' :: joinSp (w2 :: ws') := by
        rw [joinSp_cons]; simp
      show splitWSM (joinSp (w :: w2 :: ws')) false [] = w :: w2 :: ws'
      rw [hj, splitWSM_append w hwclean (' ' :: joinSp (w2 :: ws')) []]
      have hsp : isWS ' ' = true := by decide
      simp only [splitWSM, hsp, if_pos, List.append_nil]
      have hjhead : joinSp (w2 :: ws') = c2 :: (w2t ++ (if ws' = [] then [] else ' ' :: joinSp ws')) := by
        rw [joinSp_cons, hc2]; simp
      rw [hjhead, splitWSM_true_eq_false c2 _ hc2ws, ← hjhead]
      have : splitWSM (joinSp (w2 :: ws')) false [] = w2 :: ws' := by
        refine ih (by simp) ?_ ?_
        · intro x hx; exact hnil x (List.mem_cons_of_mem w hx)
        · intro x hx; exact hclean x (List.mem_cons_of_mem w hx)
      rw [this]
      simp

/-- `trim` is the identity on a string whose first and last characters
are not whitespace. -/
lemma trimChars_eq_self (l : List Char)
    (h1 : ∀ c, l.head? = some c → isWS c = false)
    (h2 : ∀ c, l.getLast? = some c → isWS c = false) :
    trimChars l = l := by
  unfold trimChars
  have step1 : l.dropWhile isWS = l := by
    cases l with
    | nil => rfl
    | cons c t =>
      rw [List.dropWhile_cons, if_neg]
      rw [h1 c rfl]
      simp
  rw [step1]
  have step2 : l.reverse.dropWhile isWS = l.reverse := by
    cases hrev : l.reverse with
    | nil => rfl
    | cons c t =>
      rw [List.dropWhile_cons, if_neg]
      have : l.getLast? = some c := by
        rw [← List.head?_reverse, hrev]; rfl
      rw [h2 c this]
      simp
  rw [step2, List.reverse_reverse]

/-- The first word of a join supplies the head character. -/
lemma joinSp_head? (w : List Char) (ws : List (List Char)) (hw : w ≠ []) :
    (joinSp (w :: ws)).head? = w.head? := by
  rw [joinSp_cons]
  cases w with
  | nil => exact absurd rfl hw
  | cons c t => simp

/-- The last word of a join supplies the last character. -/
lemma joinSp_getLast? (ws : List (List Char)) (hne : ws ≠ [])
    (hnil : ∀ w ∈ ws, w ≠ []) :
    ∃ w ∈ ws, (joinSp ws).getLast? = w.getLast? := by
  induction ws with
  | nil => exact absurd rfl hne
  | cons w ws ih =>
    cases ws with
    | nil => exact ⟨w, by simp, by simp [joinSp]⟩
    | cons w2 ws' =>
      obtain ⟨x, hx, hlast⟩ := ih (by simp) (fun v hv => hnil v (List.mem_cons_of_mem w hv))
      refine ⟨x, List.mem_cons_of_mem w hx, ?_⟩
      have hj : joinSp (w :: w2 :: ws') = w ++ ' ' :: joinSp (w2 :: ws') := by
        rw [joinSp_cons]; simp
      rw [hj, List.getLast?_append_of_ne_nil w (by simp)]
      have hj2ne : joinSp (w2 :: ws') ≠ [] := by
        rw [joinSp_cons]
        have := hnil w2 (by simp)
        cases w2 with
        | nil => exact absurd rfl this
        | cons a b => simp
      cases hjoin : joinSp (w2 :: ws') with
      | nil => exact absurd hjoin hj2ne
      | cons a b =>
        rw [hjoin] at hlast
        rw [List.getLast?_cons_cons]
        exact hlast

/-! ### Window-level lemmas for the chunker -/

/-- Every word of every window comes from the original word list, and no
window is empty (when `size ≥ 1`). -/
lemma chunkWindowsGo_mem (size step fuel : Nat) (hsize : 1 ≤ size) :
    ∀ (words : List (List Char)), ∀ win ∈ chunkWindowsGo size step fuel words,
      win ≠ [] ∧ ∀ w ∈ win, w ∈ words := by
  induction fuel with
  | zero =>
    intro words win hwin
    cases words with
    | nil => simp [chunkWindowsGo] at hwin
    | cons w ws => simp [chunkWindowsGo] at hwin
  | succ fuel ih =>
    intro words win hwin
    cases words with
    | nil => simp [chunkWindowsGo] at hwin
    | cons w ws =>
      simp only [chunkWindowsGo, List.mem_cons] at hwin
      rcases hwin with h | h
      · subst h
        constructor
        · cases size with
          | zero => omega
          | succ n => simp [List.take]
        · intro x hx; exact List.mem_of_mem_take hx
      · obtain ⟨h1, h2⟩ := ih ((w :: ws).drop step) win h
        exact ⟨h1, fun x hx => List.mem_of_mem_drop (h2 x hx)⟩

/-- The windows list is non-empty for a non-empty word list. -/
lemma chunkWindowsGo_ne_nil (size step fuel : Nat) (w : List Char)
    (ws : List (List Char)) :
    chunkWindowsGo size step (fuel + 1) (w :: ws) ≠ [] := by
  simp [chunkWindowsGo]

/-- Taking the first `step` words of every window but the last and all
words of the last window recovers the word list. -/
lemma chunkWindowsGo_reassemble (size step : Nat) (hstep : 1 ≤ step)
    (hlt : step < size) :
    ∀ (fuel : Nat) (words : List (List Char)), words ≠ [] →
      words.length ≤ fuel →
      (∀ w ∈ words, w ≠ []) → (∀ w ∈ words, ∀ c ∈ w, isWS c = false) →
      reassembleWords step ((chunkWindowsGo size step fuel words).map joinSp) = words := by
  intro fuel
  induction fuel with
  | zero =>
    intro words hne hlen _ _
    cases words with
    | nil => exact absurd rfl hne
    | cons w ws => simp at hlen
  | succ fuel ih =>
    intro words hne hlen hnil hclean
    cases words with
    | nil => exact absurd rfl hne
    | cons w ws =>
      have hround : jsSplitWS (joinSp ((w :: ws).take size)) = (w :: ws).take size := by
        refine jsSplitWS_joinSp _ ?_ ?_ ?_
        · cases size with
          | zero => omega
          | succ n => simp [List.take]
        · intro x hx; exact hnil x (List.mem_of_mem_take hx)
        · intro x hx; exact hclean x (List.mem_of_mem_take hx)
      by_cases hdrop : (w :: ws).drop step = []
      · have hlen2 : (w :: ws).length ≤ step := by
          have := List.length_drop step (w :: ws)
          rw [hdrop] at this
          simp at this
          simp only [List.length_cons]
          omega
        have htake : (w :: ws).take size = w :: ws := List.take_of_length_le (by omega)
        have hgo : chunkWindowsGo size step fuel ((w :: ws).drop step) = [] := by
          rw [hdrop]
          cases fuel <;> rfl
        simp only [chunkWindowsGo, hgo, List.map_cons, List.map_nil]
        show jsSplitWS (joinSp ((w :: ws).take size)) = w :: ws
        rw [hround, htake]
      · obtain ⟨d, ds, hds⟩ : ∃ d ds, (w :: ws).drop step = d :: ds := by
          cases h : (w :: ws).drop step with
          | nil => exact absurd h hdrop
          | cons a b => exact ⟨a, b, rfl⟩
        have hdroplen : ((w :: ws).drop step).length ≤ fuel := by
          have h1 := List.length_drop step (w :: ws)
          rw [h1]
          simp only [List.length_cons] at hlen ⊢
          omega
        have hfuelpos : 1 ≤ fuel := by
          rw [hds] at hdroplen
          simp at hdroplen
          omega
        obtain ⟨f, hf⟩ : ∃ f, fuel = f + 1 := ⟨fuel - 1, by omega⟩
        have hrec : chunkWindowsGo size step fuel ((w :: ws).drop step) ≠ [] := by
          rw [hf, hds]
          exact chunkWindowsGo_ne_nil size step f d ds
        have hih : reassembleWords step
            ((chunkWindowsGo size step fuel ((w :: ws).drop step)).map joinSp)
            = (w :: ws).drop step := by
          refine ih _ hdrop hdroplen ?_ ?_
          · intro x hx; exact hnil x (List.mem_of_mem_drop hx)
          · intro x hx; exact hclean x (List.mem_of_mem_drop hx)
        obtain ⟨win2, wins', hw2⟩ : ∃ a b,
            chunkWindowsGo size step fuel ((w :: ws).drop step) = a :: b := by
          cases h : chunkWindowsGo size step fuel ((w :: ws).drop step) with
          | nil => exact absurd h hrec
          | cons a b => exact ⟨a, b, rfl⟩
        simp only [chunkWindowsGo, hw2, List.map_cons]
        show reassembleWords step (joinSp ((w :: ws).take size) :: joinSp win2 :: wins'.map joinSp)
            = w :: ws
        simp only [reassembleWords]
        rw [hround]
        have htt : ((w :: ws).take size).take step = (w :: ws).take step := by
          rw [List.take_take]
          congr 1
          omega
        rw [htt]
        rw [hw2] at hih
        simp only [List.map_cons] at hih
        rw [hih]
        exact List.take_append_drop step (w :: ws)

/-- `filterMap` acts as a plain `map` when the function is `some ∘ g`
pointwise on the list. -/
lemma filterMap_eq_map_on (f : α → Option β) (g : α → β) (l : List α)
    (h : ∀ x ∈ l, f x = some (g x)) : l.filterMap f = l.map g := by
  induction l with
  | nil => rfl
  | cons a l ih =>
    rw [List.filterMap_cons, h a (List.mem_cons_self a l), List.map_cons,
      ih (fun x hx => h x (List.mem_cons_of_mem a hx))]

/-- For a window of non-empty whitespace-free words, the space-join is
non-empty and already trimmed. -/
lemma joinSp_window (win : List (List Char)) (hne : win ≠ [])
    (hnil : ∀ w ∈ win, w ≠ []) (hclean : ∀ w ∈ win, ∀ c ∈ w, isWS c = false) :
    joinSp win ≠ [] ∧ trimChars (joinSp win) = joinSp win := by
  obtain ⟨v, rest, hv⟩ : ∃ v rest, win = v :: rest := by
    cases win with
    | nil => exact absurd rfl hne
    | cons a b => exact ⟨a, b, rfl⟩
  subst hv
  have hvne : v ≠ [] := hnil v (by simp)
  have hhead : (joinSp (v :: rest)).head? = v.head? := joinSp_head? v rest hvne
  obtain ⟨a, v', hav⟩ : ∃ a v', v = a :: v' := by
    cases v with
    | nil => exact absurd rfl hvne
    | cons a b => exact ⟨a, b, rfl⟩
  have hjne : joinSp (v :: rest) ≠ [] := by
    intro h
    rw [h, hav] at hhead
    simp at hhead
  refine ⟨hjne, trimChars_eq_self _ ?_ ?_⟩
  · intro c hc
    rw [hhead, hav] at hc
    simp at hc
    subst hc
    exact hclean v (by simp) a (by rw [hav]; simp)
  · intro c hc
    obtain ⟨x, hx, hlast⟩ := joinSp_getLast? (v :: rest) (by simp) hnil
    rw [hlast] at hc
    exact hclean x hx c (List.mem_of_getLast?_eq_some hc)

/-! ### Claim C4 -/

/-- Claim C4, counterexample.  For the text `" a b c"` (leading
whitespace), window size 2 and overlap 1, reassembling consecutive
chunks' first `2 − 1` words plus the final chunk does NOT reproduce the
text's word sequence: JS `split(/\s+/)` yields a leading empty word, the
first window `["", "a"]` collapses to the chunk `"a"` after trimming, and
the word `a` is duplicated in the reassembly. -/
theorem splitIntoChunks_reassembly_cex :
    reassembleWords (2 - 1) (splitIntoChunks " a b c".data 2 1) =
      ["a".data, "a".data, "b".data, "c".data]
    ∧ wordsOfText " a b c".data = ["a".data, "b".data, "c".data]
    ∧ reassembleWords (2 - 1) (splitIntoChunks " a b c".data 2 1) ≠
        wordsOfText " a b c".data := by
  refine ⟨by decide, by decide, by decide⟩

/-- Claim C4, amended: the guarantees hold for every text whose
whitespace split contains no empty word (no leading/trailing whitespace
and a non-empty text).  Then `splitIntoChunks` returns exactly the
space-joins of the word windows advancing by `S − O`, every chunk is
non-empty and trimmed, and the claimed reassembly reproduces the text's
word sequence. -/
theorem splitIntoChunks_sound (t : List Char) (S O : Nat)
    (hO : 0 < O) (hOS : O < S) (hwords : ∀ w ∈ jsSplitWS t, w ≠ []) :
    splitIntoChunks t S O = (chunkWindows (jsSplitWS t) S (S - O)).map joinSp
    ∧ reassembleWords (S - O) (splitIntoChunks t S O) = wordsOfText t
    ∧ ∀ c ∈ splitIntoChunks t S O, c ≠ [] ∧ trimChars c = c := by
  have hclean : ∀ w ∈ jsSplitWS t, ∀ c ∈ w, isWS c = false :=
    splitWSM_clean t false [] (by simp)
  have hne : jsSplitWS t ≠ [] := splitWSM_ne_nil t false []
  have hsize : 1 ≤ S := by omega
  have hwin := chunkWindowsGo_mem S (S - O) (jsSplitWS t).length hsize (jsSplitWS t)
  have hwinfacts : ∀ win ∈ chunkWindows (jsSplitWS t) S (S - O),
      joinSp win ≠ [] ∧ trimChars (joinSp win) = joinSp win := by
    intro win hw
    obtain ⟨h1, h2⟩ := hwin win hw
    exact joinSp_window win h1 (fun w hx => hwords w (h2 w hx))
      (fun w hx => hclean w (h2 w hx))
  have hchunks : splitIntoChunks t S O = (chunkWindows (jsSplitWS t) S (S - O)).map joinSp := by
    unfold splitIntoChunks
    refine filterMap_eq_map_on _ _ _ ?_
    intro win hw
    obtain ⟨h1, h2⟩ := hwinfacts win hw
    simp only [h2, if_neg h1]
  refine ⟨hchunks, ?_, ?_⟩
  · rw [hchunks]
    have hfilter : wordsOfText t = jsSplitWS t := by
      unfold wordsOfText
      refine List.filter_eq_self.mpr ?_
      intro w hw
      simpa using hwords w hw
    rw [hfilter]
    exact chunkWindowsGo_reassemble S (S - O) (by omega) (by omega)
      (jsSplitWS t).length (jsSplitWS t) hne le_rfl hwords hclean
  · intro c hc
    rw [hchunks] at hc
    obtain ⟨win, hwinmem, hwinc⟩ := List.mem_map.mp hc
    obtain ⟨h1, h2⟩ := hwinfacts win hwinmem
    rw [← hwinc]
    exact ⟨h1, h2⟩

/-- Witness for the amended Claim C4 at text `"a b c"`, window 2,
overlap 1. -/
theorem splitIntoChunks_sound_witness :
    (0 < 1 ∧ 1 < 2 ∧ ∀ w ∈ jsSplitWS "a b c".data, w ≠ []) ∧
      reassembleWords (2 - 1) (splitIntoChunks "a b c".data 2 1) =
        wordsOfText "a b c".data :=
  ⟨⟨by decide, by decide, by decide⟩,
    (splitIntoChunks_sound "a b c".data 2 1 (by decide) (by decide) (by decide)).2.1⟩

lemma sqrtModel_spec : SqrtSpec sqrtModel := by
  constructor
  · simp [sqrtModel]
  · intro q hq
    exact ⟨q, hq, by simp [sqrtModel, hq]⟩

/-! ### Claim C3 -/

/-- Claim C3, counterexample.  For `a = [0, 0]` (zero magnitude) and
`b = [1, 0]` (equal length), `cosineSimilarity` evaluates `0 / (0 * 1)`,
which is `NaN`, not the claimed `0`: the source has no zero-magnitude
guard.  `sqrtModel` is a conforming instance of the opaque `Math.sqrt`
(on this input only `sqrt 0 = 0` and `sqrt 1 ≥ 0` are exercised, forced
for every conforming square root). -/
theorem cosineSimilarity_zero_cex :
    SqrtSpec sqrtModel
    ∧ sumSquares ([0, 0] : List ℚ) = 0
    ∧ ([0, 0] : List ℚ).length = ([1, 0] : List ℚ).length
    ∧ cosineSimilarity sqrtModel [0, 0] [1, 0] = JSNum.nan
    ∧ JSNum.nan ≠ JSNum.fin 0 :=
  ⟨sqrtModel_spec, by simp [sumSquares], rfl,
    by norm_num [cosineSimilarity, dotProduct, dotAux, jsNth, jsAdd, jsMul,
      jsDiv, sumSquares, sqrtModel],
    by decide⟩

/-- `sumSquares` accumulates non-negatively. -/
lemma sumSquares_foldl_nonneg (v : List ℚ) :
    ∀ s : ℚ, 0 ≤ s → 0 ≤ v.foldl (fun s x => s + x * x) s := by
  induction v with
  | nil => intro s hs; simpa using hs
  | cons x xs ih =>
    intro s hs
    simp only [List.foldl_cons]
    exact ih _ (add_nonneg hs (mul_self_nonneg x))

/-- A zero sum of squares forces every entry to be zero. -/
lemma sumSquares_eq_zero (v : List ℚ) :
    ∀ s : ℚ, 0 ≤ s → v.foldl (fun s x => s + x * x) s = 0 →
      s = 0 ∧ ∀ x ∈ v, x = 0 := by
  induction v with
  | nil =>
    intro s hs h
    simp only [List.foldl_nil] at h
    exact ⟨h, by simp⟩
  | cons x xs ih =>
    intro s hs h
    simp only [List.foldl_cons] at h
    obtain ⟨hsx, hxs⟩ := ih (s + x * x) (add_nonneg hs (mul_self_nonneg x)) h
    have hx2 : 0 ≤ x * x := mul_self_nonneg x
    have hs0 : s = 0 := by linarith
    have hx0 : x = 0 := mul_self_eq_zero.mp (by linarith)
    refine ⟨hs0, ?_⟩
    intro y hy
    rcases List.mem_cons.mp hy with h | h
    · subst h; exact hx0
    · exact hxs y h

/-- The dot-product reduce stays at an exact partial sum whenever each
term of the walk contributes an exact zero. -/
lemma dotAux_zero (b : List ℚ) (xs : List ℚ) :
    ∀ (i : Nat) (s : ℚ), i + xs.length ≤ b.length →
      (∀ x ∈ xs, x = 0) ∨ (∀ y ∈ b, y = 0) →
      dotAux b xs i (.fin s) = .fin s := by
  induction xs with
  | nil => intro i s _ _; rfl
  | cons x xs ih =>
    intro i s hlen hz
    simp only [dotAux]
    have hib : i < b.length := by
      simp only [List.length_cons] at hlen
      omega
    obtain ⟨q, hq⟩ : ∃ q, b[i]? = some q := ⟨b[i], List.getElem?_eq_getElem hib⟩
    have hqmem : q ∈ b := by
      have h2 : b.get? i = some q := by simpa [List.get?_eq_getElem?] using hq
      exact List.get?_mem h2
    have hnth : jsNth b i = .fin q := by simp [jsNth, hq]
    have hterm : jsMul (.fin x) (jsNth b i) = .fin 0 := by
      rw [hnth]
      rcases hz with hz | hz
      · have : x = 0 := hz x (List.mem_cons_self x xs)
        simp [jsMul, this]
      · have : q = 0 := hz q hqmem
        simp [jsMul, this]
    rw [hterm]
    have : jsAdd (.fin s) (.fin 0) = .fin s := by simp [jsAdd]
    rw [this]
    refine ih (i + 1) s ?_ ?_
    · simp only [List.length_cons] at hlen
      omega
    · rcases hz with hz | hz
      · exact Or.inl fun y hy => hz y (List.mem_cons_of_mem x hy)
      · exact Or.inr hz

/-- Claim C3, amended: for equal-length vectors with at least one of
them of zero magnitude, the unguarded division makes `cosineSimilarity`
return `NaN` — not `0` — for every square root conforming to
`SqrtSpec` (in particular for `Math.sqrt`). -/
theorem cosineSimilarity_zero_mag_nan (sqrt : JSNum → JSNum)
    (hs : SqrtSpec sqrt) (a b : List ℚ) (hlen : a.length = b.length)
    (hzero : sumSquares a = 0 ∨ sumSquares b = 0) :
    cosineSimilarity sqrt a b = .nan := by
  obtain ⟨hs0, hsfin⟩ := hs
  have hdot : dotProduct a b = .fin 0 := by
    unfold dotProduct
    refine dotAux_zero b a 0 0 (by omega) ?_
    rcases hzero with hz | hz
    · exact Or.inl ((sumSquares_eq_zero a 0 le_rfl hz).2)
    · exact Or.inr ((sumSquares_eq_zero b 0 le_rfl hz).2)
  have hmag : jsMul (sqrt (.fin (sumSquares a))) (sqrt (.fin (sumSquares b))) = .fin 0 := by
    rcases hzero with hz | hz
    · rw [hz, hs0]
      obtain ⟨r, hr, hrb⟩ := hsfin (sumSquares b)
        (sumSquares_foldl_nonneg b 0 le_rfl)
      rw [hrb]
      simp [jsMul]
    · rw [hz, hs0]
      obtain ⟨r, hr, hra⟩ := hsfin (sumSquares a)
        (sumSquares_foldl_nonneg a 0 le_rfl)
      rw [hra]
      simp [jsMul]
  unfold cosineSimilarity
  rw [hdot, hmag]
  simp [jsDiv]

/-- Witness for the amended Claim C3 at `a = [0]`, `b = [3]`. -/
theorem cosineSimilarity_zero_mag_nan_witness :
    (SqrtSpec sqrtModel ∧ ([0] : List ℚ).length = ([3] : List ℚ).length
      ∧ sumSquares ([0] : List ℚ) = 0)
    ∧ cosineSimilarity sqrtModel [0] [3] = JSNum.nan :=
  ⟨⟨sqrtModel_spec, rfl, by simp [sumSquares]⟩,
    cosineSimilarity_zero_mag_nan sqrtModel sqrtModel_spec [0] [3] rfl
      (Or.inl (by simp [sumSquares]))⟩

/-- Membership through `insertDescBy`. -/
lemma mem_insertDescBy (key : α → JSNum) (s t : α) (l : List α) :
    t ∈ insertDescBy key s l ↔ t = s ∨ t ∈ l := by
  induction l with
  | nil => simp [insertDescBy]
  | cons a l ih =>
    simp only [insertDescBy]
    split
    · simp
    · rw [List.mem_cons, ih, List.mem_cons]
      tauto

/-- Sorting preserves membership. -/
lemma mem_sortDescBy (key : α → JSNum) (t : α) (l : List α) :
    t ∈ sortDescBy key l ↔ t ∈ l := by
  induction l with
  | nil => simp [sortDescBy]
  | cons a l ih =>
    simp only [sortDescBy]
    rw [mem_insertDescBy, ih, List.mem_cons]

/-- Sorting sources preserves membership. -/
lemma mem_sortDesc (t : Source) (l : List Source) :
    t ∈ sortDesc l ↔ t ∈ l := mem_sortDescBy Source.similarity t l

/-- Inversion: every returned source is a chunk of one of the documents,
carries that document's identifier and name, is scored by
`chunkSimilarity`, and passed the `similarity > 0` filter. -/
lemma findRelevantChunksSimple_mem (query : List Char)
    (documents : List Document) (topK : Nat) :
    ∀ s ∈ findRelevantChunksSimple query documents topK,
      ∃ doc ∈ documents, s.text ∈ doc.chunks ∧ s.documentId = doc.id
        ∧ s.documentName = doc.name
        ∧ s.similarity = chunkSimilarity query s.text
        ∧ jsGtZeroB (chunkSimilarity query s.text) = true := by
  intro s hs
  simp only [findRelevantChunksSimple] at hs
  have hs2 := List.mem_of_mem_take hs
  rw [mem_sortDesc] at hs2
  obtain ⟨doc, hdoc, hmem⟩ := List.mem_flatMap.mp hs2
  obtain ⟨chunk, hchunk, heq⟩ := List.mem_filterMap.mp hmem
  by_cases hpos : jsGtZeroB (chunkSimilarity query chunk) = true
  · rw [if_pos hpos] at heq
    have hsrec := Option.some.inj heq
    refine ⟨doc, hdoc, ?_, ?_, ?_, ?_, ?_⟩ <;> rw [← hsrec] <;>
      simp [hchunk, hpos]
  · rw [if_neg hpos] at heq
    exact absurd heq (by simp)

/-! ### Claim C5 -/

/-- Claim C5.  In lexical ranking, the query is lowercased, whitespace
split, and tokens of length ≤ 2 are discarded (`queryTokens`); every
chunk's score is `matchCount / totalTokens` (`chunkSimilarity`, carried
verbatim into every returned `Source`).  A chunk containing all remaining
query tokens scores exactly 1, and a chunk containing none of them never
appears in the returned results. -/
theorem findRelevantChunksSimple_scoring (query : List Char)
    (documents : List Document) (topK : Nat) (doc : Document)
    (chunk : List Char) (hdoc : doc ∈ documents) (hchunk : chunk ∈ doc.chunks) :
    (queryTokens query ≠ [] →
      (∀ w ∈ queryTokens query, seqContains (lowerChars chunk) w = true) →
      chunkSimilarity query chunk = .fin 1)
    ∧ ((∀ w ∈ queryTokens query, seqContains (lowerChars chunk) w = false) →
      ∀ s ∈ findRelevantChunksSimple query documents topK, s.text ≠ chunk)
    ∧ (∀ s ∈ findRelevantChunksSimple query documents topK,
        s.similarity = chunkSimilarity query s.text) := by
  refine ⟨?_, ?_, ?_⟩
  · intro hne hall
    have hfilter : (queryTokens query).filter
        (fun w => seqContains (lowerChars chunk) w) = queryTokens query :=
      List.filter_eq_self.mpr hall
    have hlen : (queryTokens query).length ≠ 0 := by
      intro h
      exact hne (List.length_eq_zero.mp h)
    unfold chunkSimilarity
    rw [hfilter]
    have hcast : ((queryTokens query).length : ℚ) ≠ 0 := by exact_mod_cast hlen
    simp only [jsDiv, if_pos hcast]
    rw [div_self hcast]
  · intro hnone s hs
    obtain ⟨doc', _, _, _, _, _, hpos⟩ :=
      findRelevantChunksSimple_mem query documents topK s hs
    intro htext
    rw [htext] at hpos
    have hfilter : (queryTokens query).filter
        (fun w => seqContains (lowerChars chunk) w) = [] :=
      List.filter_eq_nil_iff.mpr fun w hw => by simp [hnone w hw]
    unfold chunkSimilarity at hpos
    rw [hfilter] at hpos
    by_cases hq : ((queryTokens query).length : ℚ) = 0
    · simp [jsDiv, hq, jsGtZeroB] at hpos
    · simp [jsDiv, hq, jsGtZeroB] at hpos
  · intro s hs
    obtain ⟨doc', _, _, _, _, hsim, _⟩ :=
      findRelevantChunksSimple_mem query documents topK s hs
    exact hsim

/-- Witness for Claim C5 at a query whose two tokens both occur in the
fixture's chunk. -/
theorem findRelevantChunksSimple_scoring_witness :
    (docFixture ∈ [docFixture]
      ∧ "hello world and more words".data ∈ docFixture.chunks
      ∧ queryTokens "Hello WORLD".data ≠ []
      ∧ ∀ w ∈ queryTokens "Hello WORLD".data,
          seqContains (lowerChars "hello world and more words".data) w = true)
    ∧ chunkSimilarity "Hello WORLD".data "hello world and more words".data = .fin 1 :=
  ⟨⟨by decide, by decide, by decide, by decide⟩,
    (findRelevantChunksSimple_scoring "Hello WORLD".data [docFixture] 3 docFixture
      "hello world and more words".data (by decide) (by decide)).1
      (by decide) (by decide)⟩

/-! ### Claim C10 -/

/-- Claim C10.  When every whitespace token of the query has length ≤ 2,
the length filter leaves no query words, every chunk's similarity is
`0 / 0 = NaN`, NaN never passes the `similarity > 0` filter, and
`findRelevantChunksSimple` returns the empty list (no error, and no
`Source` with a NaN score is ever returned). -/
theorem findRelevantChunksSimple_short_query (query : List Char)
    (documents : List Document) (topK : Nat)
    (h : ∀ w ∈ jsSplitWS (lowerChars query), w.length ≤ 2) :
    (∀ chunk, chunkSimilarity query chunk = .nan)
    ∧ findRelevantChunksSimple query documents topK = [] := by
  have hqw : queryTokens query = [] := by
    refine List.filter_eq_nil_iff.mpr ?_
    intro w hw
    simpa using Nat.not_lt.mpr (h w hw)
  have hsim : ∀ chunk, chunkSimilarity query chunk = .nan := by
    intro chunk
    unfold chunkSimilarity
    rw [hqw]
    simp [jsDiv]
  refine ⟨hsim, ?_⟩
  have hall : (documents.flatMap fun doc =>
      doc.chunks.filterMap fun chunk =>
        if jsGtZeroB (chunkSimilarity query chunk) then
          some (⟨chunk, doc.id, doc.name, chunkSimilarity query chunk⟩ : Source)
        else none) = [] := by
    rw [List.flatMap_eq_nil_iff]
    intro doc _
    refine List.filterMap_eq_nil_iff.mpr ?_
    intro chunk _
    simp only [hsim chunk]
    simp [jsGtZeroB]
  unfold findRelevantChunksSimple
  show (sortDesc (documents.flatMap fun doc =>
      doc.chunks.filterMap fun chunk =>
        if jsGtZeroB (chunkSimilarity query chunk) then
          some (⟨chunk, doc.id, doc.name, chunkSimilarity query chunk⟩ : Source)
        else none)).take topK = []
  rw [hall]
  simp [sortDesc, sortDescBy]

/-- Witness for Claim C10 at the query `"ab cd"`. -/
theorem findRelevantChunksSimple_short_query_witness :
    (∀ w ∈ jsSplitWS (lowerChars "ab cd".data), w.length ≤ 2)
    ∧ findRelevantChunksSimple "ab cd".data [docFixture] 3 = [] :=
  ⟨by decide,
    (findRelevantChunksSimple_short_query "ab cd".data [docFixture] 3 (by decide)).2⟩

/-! ### Claim C2 -/

/-- Claim C2, counterexample.  In the part_002 variant of
`queryDocuments` (a cited ranking operation), retrieval DOES hard-fail
on embedding unavailability even though the document has non-empty
text: development mode with an empty embedding store throws
`"No hay embeddings generados…"` instead of falling back to lexical
ranking, and a rejected query embedding propagates as an error. -/
theorem queryDocumentsRetrievalP2_hard_fail_cex :
    docFixture.content ≠ []
    ∧ queryDocumentsRetrievalP2 sqrtModel false [] (.ok []) "hola".data [docFixture] =
        .error "No hay embeddings generados. Por favor sube los documentos de nuevo.".data
    ∧ queryDocumentsRetrievalP2 sqrtModel false [chunkP2Fixture]
        (.error "Timeout generando embeddings".data) "hola".data [docFixture] =
        .error "Timeout generando embeddings".data := by
  refine ⟨by decide, by rfl, by rfl⟩

/-- Claim C2, amended: the fallback guarantee holds for `findRelevantChunks`
in rag.ts — with an empty embedding store, or when the query-embedding
call rejects, it transparently returns the lexical
`findRelevantChunksSimple` result instead of raising — while the
part_002 `queryDocuments` errors in those situations (see the
counterexample). -/
theorem findRelevantChunks_fallback (sqrt : JSNum → JSNum)
    (isProduction : Bool) (store : List ChunkWithEmbedding)
    (embedOutcome : EmbedOutcome) (query : List Char)
    (documents : List Document) (topK : Nat) :
    (store = [] →
      findRelevantChunks sqrt isProduction store embedOutcome query documents topK =
        findRelevantChunksSimple query documents topK)
    ∧ (∀ msg, embedOutcome = .error msg →
      findRelevantChunks sqrt isProduction store embedOutcome query documents topK =
        findRelevantChunksSimple query documents topK) := by
  constructor
  · intro h
    subst h
    unfold findRelevantChunks
    simp
  · intro msg h
    subst h
    unfold findRelevantChunks
    split
    · rfl
    · rfl

/-- Witness for the amended Claim C2: empty store in development mode
falls back to the lexical result. -/
theorem findRelevantChunks_fallback_witness :
    findRelevantChunks sqrtModel false [] (.ok [])
        "hello".data [docFixture] 3 =
      findRelevantChunksSimple "hello".data [docFixture] 3 :=
  (findRelevantChunks_fallback sqrtModel false [] (.ok [])
    "hello".data [docFixture] 3).1 rfl

-- Sanity examples for the extractor model.
example : matchSection "SIMILITUDES".data (some "DIFERENCIAS:".data)
    "SIMILITUDES:\n- a\nDIFERENCIAS:\n- b".data = some "- a\n".data := by decide
example : extractItems ragMarkers "- primera similitud importante\nruido".data =
    ["primera similitud importante".data] := by decide

/-! ### Claim C6 -/

/-- Claim C6, counterexample.  On the block
`"- **12345678**\n- a234567890"` the source extractor keeps
`"**12345678**"` (emphasis markers are NOT stripped from items) and
discards `"a234567890"` (exactly 10 characters: the filter is
`length > 10`, so an item AT the 10-character minimum is dropped),
while the claim's described algorithm would produce exactly the
opposite. -/
theorem extractItems_cex :
    extractItems ragMarkers c6Block ≠ claimExtractItems c6Block
    ∧ extractItems ragMarkers c6Block = ["**12345678**".data]
    ∧ claimExtractItems c6Block = ["a234567890".data] := by
  refine ⟨by decide, by decide, by decide⟩

/-- Line-classifier form of the source's item extraction. -/
lemma extractItems_characterization (markers : List Char)
    (L : List (List Char)) :
    (((L.filter (fun s => decide (0 < s.length) && startsWithMarker markers s)).map
      (fun s => trimChars (stripMarker markers s))).filter
      (fun s => decide (10 < s.length)))
    = L.filterMap fun line =>
        match line with
        | [] => none
        | c :: rest =>
          if markers.contains c then
            let item := trimChars (rest.dropWhile isWS)
            if 10 < item.length then some item else none
          else none := by
  induction L with
  | nil => rfl
  | cons line L ih =>
    cases line with
    | nil => exact ih
    | cons c rest =>
      rw [List.filter_cons, List.filterMap_cons]
      have hp : (decide (0 < (c :: rest).length) && startsWithMarker markers (c :: rest))
          = markers.contains c := by
        simp [startsWithMarker]
      rw [hp]
      cases hc : markers.contains c with
      | true =>
        have hmem : c ∈ markers := by simpa using hc
        have hg : trimChars (stripMarker markers (c :: rest))
            = trimChars (rest.dropWhile isWS) := by
          simp [stripMarker, hmem]
        rw [if_pos rfl, List.map_cons, hg, List.filter_cons]
        by_cases hlen : 10 < (trimChars (rest.dropWhile isWS)).length
        · simp [hlen, ih, hmem]
        · simp [hlen, ih, hmem]
      | false =>
        have hmem : c ∉ markers := by simpa using hc
        rw [if_neg (by simp : ¬(false = true))]
        simp [hmem, ih]

/-- Claim C6, amended.  Within a captured block, the source keeps exactly
the lines whose trimmed form starts with a bullet marker (`-`, `•` or
`*` in rag.ts; only `-` or `•` in the part_002 variant), strips the
marker and the whitespace after it, trims — WITHOUT stripping emphasis
markers — and keeps only items STRICTLY longer than 10 characters; all
other lines contribute nothing. -/
theorem extractItems_amended (block : List Char) :
    (extractItems ragMarkers block =
      ((splitChar '\n' block).map trimChars).filterMap fun line =>
        match line with
        | [] => none
        | c :: rest =>
          if ragMarkers.contains c then
            let item := trimChars (rest.dropWhile isWS)
            if 10 < item.length then some item else none
          else none)
    ∧ extractItems p2Markers "* 123456789012345".data = [] := by
  constructor
  · unfold extractItems
    exact extractItems_characterization ragMarkers ((splitChar '\n' block).map trimChars)
  · decide

/-! ### Claim C7 -/

/-- Claim C7.  For every model response text the extractor's summary is
non-empty and at least the 10-character minimum length: when every
section yields nothing the summary falls back to the first 200
characters of the raw text plus `"..."`, and whenever the resulting
summary is empty or shorter than 10 characters the fixed generic
message is substituted. -/
theorem parseComparison_summary_guarantee (content : List Char) :
    (parseComparisonRag content).summary ≠ []
    ∧ 10 ≤ (parseComparisonRag content).summary.length
    ∧ (comparisonSimilarities content = [] → comparisonDifferences content = [] →
        comparisonRawSummary content = [] →
        (parseComparisonRag content).summary =
          (if (content.take 200 ++ "...".data).length < 10 then genericSummaryMsg
           else content.take 200 ++ "...".data)) := by
  have hgen : 10 ≤ genericSummaryMsg.length := by decide
  have hgenne : genericSummaryMsg ≠ [] := by decide
  unfold parseComparisonRag parseComparison
  set similarities := comparisonSimilarities content with hsims
  set differences := comparisonDifferences content with hdiffs
  set summary0 := comparisonRawSummary content with hsum0
  by_cases hempty : similarities = [] ∧ differences = [] ∧ summary0 = []
  · simp only [if_pos hempty]
    by_cases hshort : content.take 200 ++ "...".data = []
      ∨ (content.take 200 ++ "...".data).length < 10
    · simp only [if_pos hshort]
      exact ⟨hgenne, hgen, fun _ _ _ => by
        rcases hshort with h | h
        · exact absurd h (by simp)
        · rw [if_pos h]⟩
    · simp only [if_neg hshort]
      push_neg at hshort
      refine ⟨hshort.1, hshort.2, fun _ _ _ => ?_⟩
      rw [if_neg (by simpa using Nat.not_lt.mpr hshort.2)]
  · simp only [if_neg hempty]
    by_cases hshort : summary0 = [] ∨ summary0.length < 10
    · simp only [if_pos hshort]
      exact ⟨hgenne, hgen, fun h1 h2 h3 => absurd ⟨h1, h2, h3⟩ hempty⟩
    · simp only [if_neg hshort]
      push_neg at hshort
      exact ⟨hshort.1, hshort.2, fun h1 h2 h3 => absurd ⟨h1, h2, h3⟩ hempty⟩

/-- Witness for Claim C7 at the unstructured response `"x"`: every
section is empty, the 200-character fallback `"x..."` is shorter than 10
characters, so the generic message is substituted. -/
theorem parseComparison_summary_guarantee_witness :
    (comparisonSimilarities "x".data = [] ∧ comparisonDifferences "x".data = []
      ∧ comparisonRawSummary "x".data = [])
    ∧ (parseComparisonRag "x".data).summary =
        (if ("x".data.take 200 ++ "...".data).length < 10 then genericSummaryMsg
         else "x".data.take 200 ++ "...".data) :=
  ⟨⟨by decide, by decide, by decide⟩,
    (parseComparison_summary_guarantee "x".data).2.2 (by decide) (by decide) (by decide)⟩

example : parseComparisonP1 compareOkContent = compareOkParsed := by decide

/-! ### Claim C1 -/

/-- Claim C1 (code bug).  Evaluating the part_001 retry loop:
`[429, 429, 200]` succeeds on the third attempt with the parsed payload
after the 10 s and 30 s delays, and `[429, 429, 429]` exhausts the
3-attempt budget and throws the stored rate-limit error — as the claim
states.  But a non-429 failure is NOT raised immediately: after a 500
the catch block falls through and the loop issues a second fetch, so
`[500, 200]` returns the parsed payload with 2 attempts and a 10 s wait,
contradicting the claim and the source's own `// Only retry on 429
errors` comment. -/
theorem compareDocumentsRun_behavior :
    compareDocumentsRun (respSeq [.httpError 429, .httpError 429, compareOkResponse]) =
      { result := .ok compareOkParsed, attempts := 3, waits := [10000, 30000] }
    ∧ compareDocumentsRun (respSeq [.httpError 429, .httpError 429, .httpError 429]) =
      { result := .error rateLimitMsg, attempts := 3, waits := [10000, 30000] }
    ∧ compareDocumentsRun (respSeq [.httpError 500, compareOkResponse]) =
      { result := .ok compareOkParsed, attempts := 2, waits := [10000] } := by
  refine ⟨by rfl, by rfl, by rfl⟩

/-! ### Claim C8 -/

/-- Claim C8.  The summarize pre-step truncates its sample to the
1000-character budget, issues its one call with the 150-token ceiling,
and on every failure (any non-2xx status, any network/parse rejection,
missing choices, missing or empty content) returns the placeholder
`"Documento: " ++ doc.name` — which contains the document's name —
instead of failing; as a total function it never rejects. -/
theorem generateDocumentSummary_total (doc : Document) (out : FetchOutcome) :
    (sampleContent doc).length ≤ 1000
    ∧ (summaryRequest doc).maxTokens = 150
    ∧ (∀ status, out = .httpError status →
        generateDocumentSummary doc out = summaryPlaceholder doc.name)
    ∧ (∀ msg, out = .networkError msg →
        generateDocumentSummary doc out = summaryPlaceholder doc.name)
    ∧ (∀ data, out = .ok data → data.choices = none →
        generateDocumentSummary doc out = summaryPlaceholder doc.name)
    ∧ (∀ data c rest, out = .ok data → data.choices = some (c :: rest) →
        (c.content = none ∨ c.content = some []) →
        generateDocumentSummary doc out = summaryPlaceholder doc.name)
    ∧ ∃ p, summaryPlaceholder doc.name = p ++ doc.name := by
  refine ⟨?_, rfl, ?_, ?_, ?_, ?_, ⟨"Documento: ".data, rfl⟩⟩
  · exact List.length_take_le 1000 _
  · intro status h; subst h; rfl
  · intro msg h; subst h; rfl
  · intro data h hc
    subst h
    simp [generateDocumentSummary, hc]
  · intro data c rest h hc hcontent
    subst h
    rcases hcontent with h2 | h2 <;>
      simp [generateDocumentSummary, hc, h2]

/-- Witness for Claim C8 at the fixture document and a 500 response. -/
theorem generateDocumentSummary_total_witness :
    generateDocumentSummary docFixture (.httpError 500) =
      summaryPlaceholder docFixture.name :=
  (generateDocumentSummary_total docFixture (.httpError 500)).2.2.1 500 rfl

/-- A fully successful embedding pass produces exactly one entry per
chunk, in order, all carrying the document identifier. -/
lemma embedLoop_all_ok (embedOf : List Char → EmbedOutcome) (id : List Char)
    (chunks : List (List Char)) (h : ∀ c, ∃ v, embedOf c = .ok v) :
    (embedLoop embedOf id chunks).map (fun e => e.text) = chunks
    ∧ ∀ e ∈ embedLoop embedOf id chunks, e.documentId = id := by
  induction chunks with
  | nil => exact ⟨rfl, by simp [embedLoop]⟩
  | cons c cs ih =>
    obtain ⟨v, hv⟩ := h c
    obtain ⟨ih1, ih2⟩ := ih
    constructor
    · simp [embedLoop, hv, ih1]
    · intro e he
      simp only [embedLoop, hv] at he
      rcases List.mem_cons.mp he with h2 | h2
      · subst h2; rfl
      · exact ih2 e h2

/-! ### Claim C9 -/

/-- Claim C9.  Every operation leaves the existing store entries exactly
in place: whatever happens, the new store is the old store with entries
appended at the end (nothing is mutated, removed or reordered); ranking
operations append nothing; a successful upload outside production with
every embedding succeeding appends exactly one entry per chunk, in
chunk order, each carrying the new document's identifier. -/
theorem store_append_only (store : List ChunkWithEmbedding) (op : StoreOp) :
    (∃ appended, (applyOp store op).1 = store ++ appended)
    ∧ (∀ sqrt isProd emb q docs k, op = .rank sqrt isProd emb q docs k →
        (applyOp store op).1 = store)
    ∧ (∀ isProd embedOf id file, op = .upload isProd embedOf id file →
        trimChars file.text ≠ [] → isProd = false →
        (∀ c, ∃ v, embedOf c = .ok v) →
        (applyOp store op).1 =
            store ++ embedLoop embedOf id (splitIntoChunks file.text 500 100)
          ∧ (embedLoop embedOf id (splitIntoChunks file.text 500 100)).map
              (fun e => e.text) = splitIntoChunks file.text 500 100
          ∧ ∀ e ∈ embedLoop embedOf id (splitIntoChunks file.text 500 100),
              e.documentId = id) := by
  refine ⟨?_, ?_, ?_⟩
  · cases op with
    | upload isProd embedOf id file =>
      by_cases hempty : trimChars file.text = []
      · exact ⟨[], by simp [applyOp, uploadDocument, hempty]⟩
      · refine ⟨if isProd then []
          else embedLoop embedOf id (splitIntoChunks file.text 500 100), ?_⟩
        simp [applyOp, uploadDocument, hempty]
    | rank sqrt isProd emb q docs k => exact ⟨[], by simp [applyOp]⟩
  · intro sqrt isProd emb q docs k h
    subst h
    rfl
  · intro isProd embedOf id file h hne hprod hok
    subst h
    subst hprod
    obtain ⟨h1, h2⟩ := embedLoop_all_ok embedOf id (splitIntoChunks file.text 500 100) hok
    exact ⟨by simp [applyOp, uploadDocument, hne], h1, h2⟩

/-- Witness for Claim C9: a ranking operation leaves the store
unchanged. -/
theorem store_append_only_witness :
    (applyOp [] (.rank sqrtModel true (.ok []) "q".data [] 3)).1 = [] :=
  (store_append_only [] (.rank sqrtModel true (.ok []) "q".data [] 3)).2.1
    sqrtModel true (.ok []) "q".data [] 3 rfl
